import Mathlib

/-!
Verification of the dftr correlation and inference core against its
natural-language specification.

Shallow embedding notes:

* `datetime` instants are modelled as natural numbers counting seconds
  (Python datetimes are totally ordered instants; all arithmetic used by
  the code is comparison, absolute difference against a 5-minute
  `timedelta`, and flooring the minute to a multiple of 5, all of which
  are second-granularity in the inputs the code manipulates).
  `timedelta(minutes=m)` becomes `m * 60` seconds.
* Python strings are modelled as Lean `String` with ASCII-only helper
  functions (`pyLower`, `pyReplace`, `strContains`) defined by structural
  recursion so that every definition evaluates inside the kernel.
* `None` for an optional string field is `Option.none`; the `object`,
  `subject`, `description`, `source` fields are typed `str` with string
  defaults in the source, so they are plain `String` here (a collector
  passing `None` for `object` is modelled by `""`, which is how every
  truthiness test in the core treats it).
* The dynamically added `_processed` attribute used as the idempotence
  marker is modelled as an always-present Boolean field that collectors
  initialise to `false` (`hasattr` then corresponds to the field being
  `true`).
* Python `set` iteration order is implementation-defined; the places the
  code materialises a set into a list (`list(set(...))`) are modelled
  with `List.dedup`, one fixed deduplication.  No theorem below depends
  on the particular order, only on membership and count.
* `core/correlator.py` imports the confidence enum under the name
  `ConfidenceLevel` while `core/event.py` declares it as `Confidence`;
  the specification records this double naming as a known inconsistency.
  We declare `Confidence` and the alias `ConfidenceLevel` for it.
* The in-place sort of each identity group (`program_events.sort`) is
  not modelled: the per-event effect of the identity pass reads only the
  set of group members (source values, sort times), never their order,
  so the sort cannot change any field of any event.
* The unused local `subject_lower` in `is_system_activity` is omitted.
-/

/-! ## ASCII string helpers -/

def lowerChar (c : Char) : Char :=
  if 'A' ≤ c ∧ c ≤ 'Z' then Char.ofNat (c.toNat + 32) else c

/-- Python `str.lower()` restricted to ASCII data. -/
def pyLower (s : String) : String :=
  ⟨s.data.map lowerChar⟩

/-- Occurrence test on character lists: does `sub` occur inside `hay`? -/
def containsSub (hay sub : List Char) : Bool :=
  match hay with
  | [] => sub.isEmpty
  | _ :: rest => sub.isPrefixOf hay || containsSub rest sub

/-- Python `sub in s` on strings. -/
def strContains (s sub : String) : Bool :=
  containsSub s.data sub.data

/-- One step of Python `str.replace`: scan left to right, replacing
non-overlapping occurrences of `pat` by `repl`.  Structural recursion on
an explicit fuel so that the kernel can evaluate it; `fuel = hay.length`
is always enough because each step consumes at least one character when
`pat` is nonempty. -/
def replaceListAux (pat repl : List Char) : Nat → List Char → List Char
  | _, [] => []
  | 0, l => l
  | fuel + 1, a :: rest =>
    if pat.isPrefixOf (a :: rest) ∧ pat ≠ [] then
      repl ++ replaceListAux pat repl fuel ((a :: rest).drop pat.length)
    else
      a :: replaceListAux pat repl fuel rest

/-- Python `s.replace(pat, repl)` (for nonempty `pat`). -/
def pyReplace (s pat repl : String) : String :=
  ⟨replaceListAux pat.data repl.data s.data.length s.data⟩

/-- Comma-space join, Python `', '.join(l)`. -/
def joinComma : List String → String
  | [] => ""
  | [a] => a
  | a :: b :: rest => a ++ ", " ++ joinComma (b :: rest)

/-! ## Time model -/

/-- `abs(t1 - t2)` on instants. -/
def tdist (a b : Nat) : Nat := max a b - min a b

/-- `TIME_WINDOW = timedelta(minutes=5)`, in seconds. -/
def TIME_WINDOW : Nat := 300

/-- `event_time.replace(minute=event_time.minute // 5 * 5, second=0,
microsecond=0)`: the floor of the instant to a 5-minute boundary. -/
def timeKey (t : Nat) : Nat := t / 300 * 300

/-! ## Event model (`src/core/event.py`) -/

inductive EventType where
  | FILE_REFERENCE
  | PROGRAM_EXECUTION
  | USER_INTENT
  | SYSTEM_EVENT
  | FILE_ACQUISITION_INFERRED
  | CLIPBOARD_ACTIVITY
  | USB_DEVICE_MOUNT
deriving DecidableEq

inductive Confidence where
  | LOW
  | MEDIUM
  | HIGH
deriving DecidableEq

/-- `core/correlator.py` refers to the confidence enum by this name. -/
abbrev ConfidenceLevel := Confidence

structure Event where
  time_start : Option Nat := none
  time_end : Option Nat := none
  event_type : Option EventType := none
  subject : String := "User"
  object : String := ""
  description : String := ""
  source : String := ""
  confidence : Confidence := Confidence.LOW
  correlated : Bool := false
  correlation_notes : Option String := none
  _processed : Bool := false
deriving DecidableEq

/-- `sort_time = self.time_end or self.time_start` (a Python datetime is
always truthy). -/
def Event.sort_time (e : Event) : Option Nat :=
  match e.time_end with
  | some t => some t
  | none => e.time_start

/-! ## Temporal validity (`src/core/config.py`, `Event.is_temporally_valid`) -/

structure TimeValidationConfig where
  strict_mode : Bool
  max_future_drift_minutes : Nat
  log_filtered_events : Bool

def TIME_VALIDATION_CONFIG : TimeValidationConfig :=
  { strict_mode := false
    max_future_drift_minutes := 525600
    log_filtered_events := true }

/-- `Event.is_temporally_valid`, with the current system time and the
configuration passed explicitly (the source reads `datetime.now()` and
the module-level `TIME_VALIDATION_CONFIG`). -/
def Event.is_temporally_valid (e : Event) (current_time : Nat)
    (cfg : TimeValidationConfig) : Bool :=
  let max_future_time :=
    if cfg.strict_mode then current_time
    else current_time + cfg.max_future_drift_minutes * 60
  if h : e.time_start.isSome then
    if e.time_start.get h > max_future_time then false
    else match e.time_end with
      | some te => if te > max_future_time then false else true
      | none => true
  else
    match e.time_end with
    | some te => if te > max_future_time then false else true
    | none => true

/-! ## Name normalizer (`normalize_program_name`) -/

def name_map : List (String × String) :=
  [("microsoftedge", "msedge"),
   ("microsoft.windows.explorer", "explorer"),
   ("code", "visual studio code"),
   ("chrome", "google chrome"),
   ("firefox", "mozilla firefox")]

/-- `for key, value in name_map.items(): if key in name: return value`,
first match wins, falling through to the name itself. -/
def applyAliasTable : List (String × String) → String → String
  | [], n => n
  | (k, v) :: rest, n => if strContains n k then v else applyAliasTable rest n

def normalize_program_name (name : String) : String :=
  if name = "" then ""
  else
    let n := pyReplace (pyReplace (pyLower name) ".exe" "") ".lnk" ""
    applyAliasTable name_map n

/-! ## Attribution heuristics (`is_system_activity`) -/

def system_paths : List String :=
  ["system32", "syswow64", "windows\\system",
   "windowsapps", "program files\\windowsapps",
   "windows\\winsxs", "windows\\servicing"]

def system_programs : List String :=
  ["svchost", "services", "lsass", "winlogon", "csrss",
   "smss", "system", "idle", "system idle process"]

def is_system_activity (e : Event) : Bool :=
  let object_lower := pyLower e.object
  let description_lower := pyLower e.description
  system_paths.any (fun p =>
      strContains object_lower p || strContains description_lower p) ||
  system_programs.any (fun p => strContains object_lower p)

/-! ## Confidence scoring (`calculate_confidence`) -/

def calculate_confidence (e : Event) (related_events : List Event) :
    ConfidenceLevel :=
  match e.sort_time with
  | none => Confidence.LOW
  | some event_time =>
    let sources :=
      ((related_events.filter (fun r => decide (r.source ≠ e.source))).map
        (fun r => r.source)).dedup
    let time_agreements :=
      (related_events.filter (fun r =>
        match r.sort_time with
        | some rt => decide (tdist rt event_time ≤ TIME_WINDOW)
        | none => false)).length
    if 2 ≤ sources.length ∧ 1 ≤ time_agreements then Confidence.HIGH
    else if 1 ≤ sources.length ∨ 1 ≤ time_agreements then Confidence.MEDIUM
    else Confidence.LOW

/-! ## The Correlation Engine (`correlate_events`)

The Python function mutates a shared list in three sequential passes
(identity grouping, time-bucket pairing, attribution), after a first
sweep that builds `name_groups` / `time_groups` from the not yet
processed events and marks them processed.  Every value the passes READ
from another event (`object`, `description`, `event_type`, `source`,
`sort_time`, the pre-run `_processed` flag) is never WRITTEN by any
pass, and each event is a member of exactly one identity group and one
time bucket, so the net effect on each event is a function of its own
initial state and the initial states of all events.  We model it as a
per-event update pipeline over the indexed event list (indices stand for
Python object identity in `e != event` comparisons). -/

/-- The events a run works on: the not-yet-processed ones, with their
positions. -/
def freshEvents (events : List Event) : List (Nat × Event) :=
  events.enum.filter (fun p => !p.2._processed)

/-- `name_groups[nm]`: the fresh events whose normalized object is `nm`
(only consulted for `nm ≠ ""`; the empty token is never a key). -/
def identityGroup (fresh : List (Nat × Event)) (nm : String) :
    List (Nat × Event) :=
  fresh.filter (fun p => decide (normalize_program_name p.2.object = nm))

/-- Effect of the identity-grouping pass on the event at index `i`. -/
def identityUpdate (fresh : List (Nat × Event)) (i : Nat) (e : Event) :
    Event :=
  if e._processed then e
  else
    let nm := normalize_program_name e.object
    if nm = "" then e
    else
      let group := identityGroup fresh nm
      if group.length < 2 then e
      else
        let related := (group.filter (fun p => decide (p.1 ≠ i))).map Prod.snd
        let newConf := calculate_confidence e related
        let conf' :=
          if (e.confidence = Confidence.LOW ∧
                (newConf = Confidence.MEDIUM ∨ newConf = Confidence.HIGH)) ∨
             (e.confidence = Confidence.MEDIUM ∧ newConf = Confidence.HIGH)
          then newConf else e.confidence
        let groupSources := (group.map (fun p => p.2.source)).dedup
        if 1 < groupSources.length then
          { e with
            confidence := conf'
            correlated := true
            correlation_notes :=
              some ("Corroborated by: " ++ joinComma groupSources) }
        else
          { e with confidence := conf' }

/-- `if not notes: notes = s else: notes += " | " + s` (both `None` and
`""` are falsy). -/
def appendNote (n : Option String) (s : String) : Option String :=
  match n with
  | none => some s
  | some t => if t = "" then some s else some (t ++ " | " ++ s)

/-- `time_groups[timeKey t]`: the fresh events with a known sort time in
the same 5-minute bucket as `t`. -/
def bucketOf (fresh : List (Nat × Event)) (t : Nat) : List (Nat × Event) :=
  fresh.filter (fun p =>
    match p.2.sort_time with
    | some t2 => decide (timeKey t2 = timeKey t)
    | none => false)

/-- One cross-type pairing against a bucket partner: mark correlated and
append the note if the partner's time is inside the window. -/
def bucketNoteStep (t : Nat) (mkNote : Event → String) (acc : Event)
    (p : Nat × Event) : Event :=
  match p.2.sort_time with
  | some tp =>
    if tdist tp t ≤ TIME_WINDOW then
      { acc with
        correlated := true
        correlation_notes := appendNote acc.correlation_notes (mkNote p.2) }
    else acc
  | none => acc

/-- Effect of the time-bucket pairing pass on one event.  A
ProgramExecution event accumulates a note per FileReference bucket
partner in bucket order, a FileReference one per ProgramExecution
partner; other event types and timeless or already-processed events are
untouched. -/
def timeBucketUpdate (fresh : List (Nat × Event)) (e : Event) : Event :=
  if e._processed then e
  else
    match e.sort_time with
    | none => e
    | some t =>
      let bucket := bucketOf fresh t
      if bucket.length < 2 then e
      else if e.event_type = some EventType.PROGRAM_EXECUTION then
        (bucket.filter (fun p =>
            decide (p.2.event_type = some EventType.FILE_REFERENCE))).foldl
          (bucketNoteStep t
            (fun f => "Associated with file access: " ++ f.object)) e
      else if e.event_type = some EventType.FILE_REFERENCE then
        (bucket.filter (fun p =>
            decide (p.2.event_type = some EventType.PROGRAM_EXECUTION))).foldl
          (bucketNoteStep t
            (fun x => "Associated with " ++ x.object ++ " execution")) e
      else e

/-- Effect of the attribution pass on one event (runs on every event of
the list, processed or not). -/
def attributionUpdate (e : Event) : Event :=
  if is_system_activity e then
    { e with
      subject := "System"
      correlation_notes :=
        some ((e.correlation_notes.getD "") ++ " | System Activity") }
  else
    { e with subject := "User" }

/-- The complete effect of one `correlate_events` run on the event at
position `p.1`. -/
def processEvent (fresh : List (Nat × Event)) (p : Nat × Event) : Event :=
  let e1 := identityUpdate fresh p.1 p.2
  let e2 := timeBucketUpdate fresh e1
  let e3 := attributionUpdate e2
  { e3 with _processed := true }

def correlate_events (events : List Event) : List Event :=
  events.enum.map (fun p => processEvent (freshEvents events) p)

/-! ## Non-Browser Download Inference Analyzer
(`src/analysis/non_browser_downloads.py`)

`self.source` and `self.time_window` of the analyzer instance are the
constants below; `analyze` builds three filtered views of the input list
and appends at most one inferred event per candidate file, which we
express as a `filterMap` of the per-candidate loop body. -/

def analyzerSource : String := "Non-Browser Download Inference"

/-- `self.time_window = timedelta(minutes=5)`, in seconds. -/
def analyzerTimeWindow : Nat := 300

def candidate_paths : List String := ["\\downloads\\", "\\desktop\\"]

def browserDownloadSources : List String :=
  ["Chrome Downloads", "Edge Downloads", "Brave Downloads",
   "Firefox Downloads"]

def appKeywords : List String :=
  ["whatsapp", "telegram", "skype", "teams", "discord", "slack", "zoom",
   "onedrive", "dropbox", "googledrive", "icloud"]

/-- `NonBrowserDownloadAnalyzer._is_candidate_file`. -/
def is_candidate_file (e : Event) : Bool :=
  if e.event_type ≠ some EventType.FILE_REFERENCE then false
  else if e.source ≠ "NTFS Metadata" then false
  else candidate_paths.any (fun p => strContains (pyLower e.object) p)

/-- `NonBrowserDownloadAnalyzer._is_browser_download`. -/
def is_browser_download (file_path : String) (browser_events : List Event) :
    Bool :=
  browser_events.any (fun e =>
    decide (e.event_type = some EventType.FILE_REFERENCE) &&
    browserDownloadSources.any (fun s => decide (e.source = s)) &&
    decide (pyLower e.object = pyLower file_path))

/-- `NonBrowserDownloadAnalyzer._find_correlated_app`: first
ProgramExecution event naming a messaging/cloud app whose execution time
is within the window of `file_time`; returns that event's `object`. -/
def find_correlated_app (file_time : Nat) (app_events : List Event) :
    Option String :=
  app_events.findSome? (fun e =>
    if e.event_type ≠ some EventType.PROGRAM_EXECUTION then none
    else if !(appKeywords.any (fun k => strContains (pyLower e.object) k)) then
      none
    else
      match (match e.time_end with | some t => some t | none => e.time_start) with
      | some app_time =>
        if tdist app_time file_time ≤ analyzerTimeWindow then some e.object
        else none
      | none => none)

/-- The body of the `for file_event in file_events` loop of `analyze`:
the inferred event this candidate contributes, if any.  The final
`if correlated_app:` Python truthiness test also rejects an empty app
name (which in fact never occurs, since a matched object contains a
nonempty keyword). -/
def process_candidate (browser_download_events app_events : List Event)
    (start_time end_time : Option Nat) (file_event : Event) : Option Event :=
  if !is_candidate_file file_event then none
  else
    match file_event.time_start with
    | none => none
    | some file_time =>
      if (match start_time with
          | some s => decide (file_time < s)
          | none => false) then none
      else if (match end_time with
          | some x => decide (file_time > x)
          | none => false) then none
      else if is_browser_download file_event.object browser_download_events then
        none
      else
        match find_correlated_app file_time app_events with
        | none => none
        | some correlated_app =>
          if correlated_app = "" then none
          else
            some { time_start := some file_time
                   time_end := none
                   event_type := some EventType.FILE_ACQUISITION_INFERRED
                   subject := "User"
                   object := file_event.object
                   description :=
                     "File likely received via " ++ correlated_app ++
                       " (non-browser download inferred)"
                   source := analyzerSource
                   confidence := Confidence.MEDIUM }

/-- `NonBrowserDownloadAnalyzer.analyze`. -/
def analyze (events : List Event) (start_time end_time : Option Nat) :
    List Event :=
  let file_events := events.filter (fun e =>
    decide (e.event_type = some EventType.FILE_REFERENCE) &&
    decide (e.source = "NTFS Metadata"))
  let browser_download_events := events.filter (fun e =>
    decide (e.event_type = some EventType.FILE_REFERENCE) &&
    browserDownloadSources.any (fun s => decide (e.source = s)))
  let app_events := events.filter (fun e =>
    decide (e.event_type = some EventType.PROGRAM_EXECUTION))
  file_events.filterMap
    (process_candidate browser_download_events app_events start_time end_time)

/-! ## Specification-side definitions

These definitions transcribe the *spec's words* (for refinement /
counterexample purposes); each doc comment names the claim they serve.
-/

/-- The confidence ordering `Low < Medium < High` of the spec. -/
def confRank : Confidence → Nat
  | Confidence.LOW => 0
  | Confidence.MEDIUM => 1
  | Confidence.HIGH => 2

/-- The spec's "never downgrade" escalation: adopt the newly computed
confidence only when it is strictly higher. -/
def escalate (old new : Confidence) : Confidence :=
  if confRank old < confRank new then new else old

/-- C1, as the claim words it: the confidence computed from an event's
identity-group peers, with time-gated source counting —
`distinct_sources` counts distinct source values differing from the
event's own source ONLY among related events whose `sort_time` lies
within 5 minutes of the event's `sort_time`. -/
def confidence_rule_time_gated (e : Event) (related : List Event) :
    Confidence :=
  match e.sort_time with
  | none => Confidence.LOW
  | some t =>
    let distinct_sources :=
      ((((related.filter (fun r =>
            match r.sort_time with
            | some rt => decide (tdist rt t ≤ TIME_WINDOW)
            | none => false)).map (fun r => r.source)).filter
          (fun s => decide (s ≠ e.source))).dedup).length
    let time_agreements :=
      (related.filter (fun r =>
        match r.sort_time with
        | some rt => decide (tdist rt t ≤ TIME_WINDOW)
        | none => false)).length
    if 2 ≤ distinct_sources ∧ 1 ≤ time_agreements then Confidence.HIGH
    else if 1 ≤ distinct_sources ∨ 1 ≤ time_agreements then Confidence.MEDIUM
    else Confidence.LOW

/-- C1 amended: the same rule but with `distinct_sources` counted over
ALL related events (no time gate on source counting; an event with no
`sort_time` of its own always computes Low). -/
def confidence_rule (e : Event) (related : List Event) : Confidence :=
  match e.sort_time with
  | none => Confidence.LOW
  | some t =>
    let distinct_sources :=
      (((related.map (fun r => r.source)).filter
          (fun s => decide (s ≠ e.source))).dedup).length
    let time_agreements :=
      (related.filter (fun r =>
        match r.sort_time with
        | some rt => decide (tdist rt t ≤ TIME_WINDOW)
        | none => false)).length
    if 2 ≤ distinct_sources ∧ 1 ≤ time_agreements then Confidence.HIGH
    else if 1 ≤ distinct_sources ∨ 1 ≤ time_agreements then Confidence.MEDIUM
    else Confidence.LOW

/-- C5, as the claim words it: the subject should be "System" exactly
when `object` or `description` contains any listed system path fragment
or any listed system process name. -/
def claim_system_condition (e : Event) : Bool :=
  (["system32", "syswow64", "windowsapps", "winsxs", "servicing"] ++
   ["svchost", "lsass", "winlogon", "csrss", "smss",
    "system idle process", "system", "services", "idle"]).any
    (fun p => strContains (pyLower e.object) p ||
              strContains (pyLower e.description) p)

/-- C6, as the claim words it: the inferred event a given input event
contributes — `some` exactly for a candidate file event (FileReference
from "NTFS Metadata" whose lower-cased path contains `\downloads\` or
`\desktop\`, with known creation time, inside the optional
`[start_time, end_time]` bound) that is not explained by a
browser-download event and for which the first (in list order)
messaging/cloud ProgramExecution within 5 minutes (inclusive) of the
creation time exists; the result names that execution's object. -/
def inferred_for (events : List Event) (start_time end_time : Option Nat)
    (e : Event) : Option Event :=
  match e.time_start with
  | none => none
  | some t =>
    if decide (e.event_type = some EventType.FILE_REFERENCE) &&
       decide (e.source = "NTFS Metadata") &&
       (strContains (pyLower e.object) "\\downloads\\" ||
        strContains (pyLower e.object) "\\desktop\\") &&
       (match start_time with | some s => decide (s ≤ t) | none => true) &&
       (match end_time with | some x => decide (t ≤ x) | none => true) &&
       !(events.any (fun b =>
          decide (b.event_type = some EventType.FILE_REFERENCE) &&
          browserDownloadSources.any (fun src => decide (b.source = src)) &&
          decide (pyLower b.object = pyLower e.object)))
    then
      match events.find? (fun a =>
        decide (a.event_type = some EventType.PROGRAM_EXECUTION) &&
        appKeywords.any (fun k => strContains (pyLower a.object) k) &&
        (match (match a.time_end with
                | some u => some u
                | none => a.time_start) with
         | some u => decide (tdist u t ≤ 300)
         | none => false)) with
      | some a =>
        some { time_start := some t
               time_end := none
               event_type := some EventType.FILE_ACQUISITION_INFERRED
               subject := "User"
               object := e.object
               description :=
                 "File likely received via " ++ a.object ++
                   " (non-browser download inferred)"
               source := analyzerSource
               confidence := Confidence.MEDIUM }
      | none => none
    else none

/-! ## Helper lemmas: substring reasoning -/

theorem isPrefixOf_iff : ∀ (l₁ l₂ : List Char),
    l₁.isPrefixOf l₂ = true ↔ ∃ t, l₂ = l₁ ++ t
  | [], l₂ => by simp [List.isPrefixOf]
  | a :: l₁, [] => by simp [List.isPrefixOf]
  | a :: l₁, b :: l₂ => by
    simp only [List.isPrefixOf, Bool.and_eq_true, beq_iff_eq,
      isPrefixOf_iff l₁ l₂, List.cons_append, List.cons.injEq]
    constructor
    · rintro ⟨h1, t, h2⟩
      exact ⟨t, h1.symm, h2⟩
    · rintro ⟨t, h1, h2⟩
      exact ⟨h1.symm, t, h2⟩

theorem containsSub_iff : ∀ (hay sub : List Char),
    containsSub hay sub = true ↔ ∃ a b, hay = a ++ sub ++ b
  | [], sub => by
    simp only [containsSub, List.isEmpty_iff]
    constructor
    · rintro rfl
      exact ⟨[], [], rfl⟩
    · rintro ⟨a, b, h⟩
      rcases List.append_eq_nil.mp h.symm with ⟨h1, h2⟩
      exact (List.append_eq_nil.mp h1).2
  | c :: rest, sub => by
    simp only [containsSub, Bool.or_eq_true, isPrefixOf_iff,
      containsSub_iff rest sub]
    constructor
    · rintro (⟨t, h⟩ | ⟨a, b, h⟩)
      · exact ⟨[], t, by simpa using h⟩
      · exact ⟨c :: a, b, by simp [h]⟩
    · rintro ⟨a, b, h⟩
      cases a with
      | nil =>
        exact Or.inl ⟨b, by simpa using h⟩
      | cons x a' =>
        right
        refine ⟨a', b, ?_⟩
        have h' : x :: (a' ++ sub ++ b) = c :: rest := by simpa using h.symm
        exact (List.cons.injEq _ _ _ _ ▸ h').2.symm ▸ rfl

theorem strContains_iff (s sub : String) :
    strContains s sub = true ↔ ∃ a b, s.data = a ++ sub.data ++ b := by
  simp [strContains, containsSub_iff]

theorem string_data_append (s t : String) : (s ++ t).data = s.data ++ t.data :=
  rfl

theorem strContains_refl (s : String) : strContains s s = true := by
  rw [strContains_iff]
  exact ⟨[], [], by simp⟩

theorem strContains_append_right (s t sub : String)
    (h : strContains s sub = true) : strContains (s ++ t) sub = true := by
  rw [strContains_iff] at h ⊢
  rcases h with ⟨a, b, h⟩
  exact ⟨a, b ++ t.data, by simp [string_data_append, h]⟩

theorem strContains_append_left (s sub : String) :
    strContains (s ++ sub) sub = true := by
  rw [strContains_iff]
  exact ⟨s.data, [], by simp [string_data_append]⟩

theorem strContains_empty (s : String) : strContains s "" = true := by
  rw [strContains_iff]
  exact ⟨[], s.data, by simp⟩

/-- Appending a further note keeps any substring of the old notes. -/
theorem strContains_appendNote (n : Option String) (add s : String)
    (h : strContains (n.getD "") s = true) :
    strContains ((appendNote n add).getD "") s = true := by
  match n with
  | none =>
    simp only [Option.getD_none] at h
    rcases (strContains_iff _ _).mp h with ⟨a, b, hd⟩
    have : s.data = [] := by
      have := hd.symm
      simp at this
      exact this.2.1
    simp only [appendNote, Option.getD_some]
    rw [strContains_iff]
    exact ⟨[], "".data ++ add.data, by simp [this]⟩
  | some t =>
    simp only [Option.getD_some] at h
    simp only [appendNote]
    by_cases ht : t = ""
    · subst ht
      simp only [if_pos rfl, Option.getD_some]
      rcases (strContains_iff _ _).mp h with ⟨a, b, hd⟩
      have hs : s.data = [] := by
        have := hd.symm
        simp at this
        exact this.2.1
      rw [strContains_iff]
      exact ⟨[], add.data, by simp [hs]⟩
    · simp only [if_neg ht, Option.getD_some]
      exact strContains_append_right _ _ _
        (strContains_append_right _ _ _ h)

/-! ## Helper lemmas: what each pass can and cannot change -/

theorem bucketNoteStep_fields (t : Nat) (mk : Event → String) (acc : Event)
    (p : Nat × Event) :
    (bucketNoteStep t mk acc p).confidence = acc.confidence ∧
    (bucketNoteStep t mk acc p).subject = acc.subject ∧
    (bucketNoteStep t mk acc p).object = acc.object ∧
    (bucketNoteStep t mk acc p).description = acc.description ∧
    (bucketNoteStep t mk acc p).source = acc.source ∧
    (bucketNoteStep t mk acc p).event_type = acc.event_type ∧
    (bucketNoteStep t mk acc p).time_start = acc.time_start ∧
    (bucketNoteStep t mk acc p).time_end = acc.time_end ∧
    (bucketNoteStep t mk acc p)._processed = acc._processed := by
  unfold bucketNoteStep
  rcases p.2.sort_time with _ | tp <;> simp
  split <;> simp

theorem foldl_bucketNoteStep_fields (t : Nat) (mk : Event → String) :
    ∀ (l : List (Nat × Event)) (acc : Event),
    (l.foldl (bucketNoteStep t mk) acc).confidence = acc.confidence ∧
    (l.foldl (bucketNoteStep t mk) acc).subject = acc.subject ∧
    (l.foldl (bucketNoteStep t mk) acc).object = acc.object ∧
    (l.foldl (bucketNoteStep t mk) acc).description = acc.description ∧
    (l.foldl (bucketNoteStep t mk) acc).source = acc.source ∧
    (l.foldl (bucketNoteStep t mk) acc).event_type = acc.event_type ∧
    (l.foldl (bucketNoteStep t mk) acc).time_start = acc.time_start ∧
    (l.foldl (bucketNoteStep t mk) acc).time_end = acc.time_end ∧
    (l.foldl (bucketNoteStep t mk) acc)._processed = acc._processed
  | [], acc => by simp
  | p :: l, acc => by
    have h1 := bucketNoteStep_fields t mk acc p
    have h2 := foldl_bucketNoteStep_fields t mk l (bucketNoteStep t mk acc p)
    simp only [List.foldl_cons]
    exact ⟨h2.1.trans h1.1, h2.2.1.trans h1.2.1, h2.2.2.1.trans h1.2.2.1,
      h2.2.2.2.1.trans h1.2.2.2.1, h2.2.2.2.2.1.trans h1.2.2.2.2.1,
      h2.2.2.2.2.2.1.trans h1.2.2.2.2.2.1,
      h2.2.2.2.2.2.2.1.trans h1.2.2.2.2.2.2.1,
      h2.2.2.2.2.2.2.2.1.trans h1.2.2.2.2.2.2.2.1,
      h2.2.2.2.2.2.2.2.2.trans h1.2.2.2.2.2.2.2.2⟩

theorem timeBucketUpdate_fields (fresh : List (Nat × Event)) (e : Event) :
    (timeBucketUpdate fresh e).confidence = e.confidence ∧
    (timeBucketUpdate fresh e).subject = e.subject ∧
    (timeBucketUpdate fresh e).object = e.object ∧
    (timeBucketUpdate fresh e).description = e.description ∧
    (timeBucketUpdate fresh e).source = e.source ∧
    (timeBucketUpdate fresh e).event_type = e.event_type ∧
    (timeBucketUpdate fresh e).time_start = e.time_start ∧
    (timeBucketUpdate fresh e).time_end = e.time_end ∧
    (timeBucketUpdate fresh e)._processed = e._processed := by
  unfold timeBucketUpdate
  split
  · simp
  · rcases he : e.sort_time with _ | t
    · simp
    · simp only []
      split
      · simp
      · split
        · exact foldl_bucketNoteStep_fields _ _ _ _
        · split
          · exact foldl_bucketNoteStep_fields _ _ _ _
          · simp

theorem identityUpdate_fields (fresh : List (Nat × Event)) (i : Nat)
    (e : Event) :
    (identityUpdate fresh i e).subject = e.subject ∧
    (identityUpdate fresh i e).object = e.object ∧
    (identityUpdate fresh i e).description = e.description ∧
    (identityUpdate fresh i e).source = e.source ∧
    (identityUpdate fresh i e).event_type = e.event_type ∧
    (identityUpdate fresh i e).time_start = e.time_start ∧
    (identityUpdate fresh i e).time_end = e.time_end ∧
    (identityUpdate fresh i e)._processed = e._processed := by
  simp only [identityUpdate]
  split
  · simp
  · split
    · simp
    · split
      · simp
      · split <;> simp

theorem attributionUpdate_fields (e : Event) :
    (attributionUpdate e).confidence = e.confidence ∧
    (attributionUpdate e).correlated = e.correlated ∧
    (attributionUpdate e).object = e.object ∧
    (attributionUpdate e).description = e.description ∧
    (attributionUpdate e).source = e.source ∧
    (attributionUpdate e).event_type = e.event_type ∧
    (attributionUpdate e).time_start = e.time_start ∧
    (attributionUpdate e).time_end = e.time_end ∧
    (attributionUpdate e)._processed = e._processed := by
  unfold attributionUpdate
  split <;> simp

theorem is_system_activity_congr (e f : Event) (h1 : e.object = f.object)
    (h2 : e.description = f.description) :
    is_system_activity e = is_system_activity f := by
  unfold is_system_activity
  rw [h1, h2]

theorem Event.sort_time_congr (e f : Event) (h1 : e.time_start = f.time_start)
    (h2 : e.time_end = f.time_end) : e.sort_time = f.sort_time := by
  unfold Event.sort_time
  rw [h1, h2]

theorem escalate_eq_guard (old new : Confidence) :
    (if (old = Confidence.LOW ∧
          (new = Confidence.MEDIUM ∨ new = Confidence.HIGH)) ∨
        (old = Confidence.MEDIUM ∧ new = Confidence.HIGH)
     then new else old) = escalate old new := by
  cases old <;> cases new <;> simp [escalate, confRank]

theorem confRank_le_escalate (old new : Confidence) :
    confRank old ≤ confRank (escalate old new) := by
  cases old <;> cases new <;> simp [escalate, confRank]

theorem identityUpdate_confidence (fresh : List (Nat × Event)) (i : Nat)
    (e : Event) :
    (identityUpdate fresh i e).confidence = e.confidence ∨
    (identityUpdate fresh i e).confidence =
      escalate e.confidence
        (calculate_confidence e
          (((identityGroup fresh (normalize_program_name e.object)).filter
             (fun p => decide (p.1 ≠ i))).map Prod.snd)) := by
  simp only [identityUpdate]
  split
  · exact Or.inl rfl
  · split
    · exact Or.inl rfl
    · split
      · exact Or.inl rfl
      · rw [escalate_eq_guard]
        split <;> exact Or.inr rfl

theorem identityUpdate_confidence_of_grouped (fresh : List (Nat × Event))
    (i : Nat) (e : Event) (hf : e._processed = false)
    (hnm : normalize_program_name e.object ≠ "")
    (hg : 2 ≤ (identityGroup fresh (normalize_program_name e.object)).length) :
    (identityUpdate fresh i e).confidence =
      escalate e.confidence
        (calculate_confidence e
          (((identityGroup fresh (normalize_program_name e.object)).filter
             (fun p => decide (p.1 ≠ i))).map Prod.snd)) := by
  simp only [identityUpdate]
  rw [if_neg (by simp [hf]), if_neg hnm, if_neg (by omega), escalate_eq_guard]
  split <;> rfl

theorem identityUpdate_confidence_mono (fresh : List (Nat × Event)) (i : Nat)
    (e : Event) :
    confRank e.confidence ≤ confRank (identityUpdate fresh i e).confidence := by
  rcases identityUpdate_confidence fresh i e with h | h <;> rw [h]
  exact confRank_le_escalate _ _

/-! ## Helper lemmas: `processEvent` projections -/

theorem processEvent_confidence (fresh : List (Nat × Event))
    (p : Nat × Event) :
    (processEvent fresh p).confidence =
      (identityUpdate fresh p.1 p.2).confidence := by
  simp only [processEvent]
  exact (timeBucketUpdate_fields fresh _).1.symm ▸
    (attributionUpdate_fields _).1.trans (timeBucketUpdate_fields fresh _).1

theorem processEvent_processed (fresh : List (Nat × Event))
    (p : Nat × Event) : (processEvent fresh p)._processed = true := rfl

theorem processEvent_object (fresh : List (Nat × Event)) (p : Nat × Event) :
    (processEvent fresh p).object = p.2.object := by
  simp only [processEvent]
  exact ((attributionUpdate_fields _).2.2.1.trans
    (timeBucketUpdate_fields fresh _).2.2.1).trans
    (identityUpdate_fields fresh _ _).2.1

theorem processEvent_description (fresh : List (Nat × Event))
    (p : Nat × Event) :
    (processEvent fresh p).description = p.2.description := by
  simp only [processEvent]
  exact ((attributionUpdate_fields _).2.2.2.1.trans
    (timeBucketUpdate_fields fresh _).2.2.2.1).trans
    (identityUpdate_fields fresh _ _).2.2.1

theorem processEvent_subject (fresh : List (Nat × Event)) (p : Nat × Event) :
    (processEvent fresh p).subject =
      (if is_system_activity p.2 then "System" else "User") := by
  have hsys : is_system_activity
      (timeBucketUpdate fresh (identityUpdate fresh p.1 p.2)) =
      is_system_activity p.2 := by
    apply is_system_activity_congr
    · exact (timeBucketUpdate_fields fresh _).2.2.1.trans
        (identityUpdate_fields fresh _ _).2.1
    · exact (timeBucketUpdate_fields fresh _).2.2.2.1.trans
        (identityUpdate_fields fresh _ _).2.2.1
  simp only [processEvent, attributionUpdate]
  split
  · rename_i h
    rw [hsys] at h
    simp [h]
  · rename_i h
    rw [hsys] at h
    simp [h]

theorem strContains_sysact (x : String) :
    strContains (x ++ " | System Activity") "System Activity" = true := by
  have h2 : (" | " ++ "System Activity" : String) = " | System Activity" := by
    decide
  have h : x ++ " | System Activity" = (x ++ " | ") ++ "System Activity" := by
    rw [String.append_assoc, h2]
  rw [h]
  exact strContains_append_left _ _

theorem processEvent_notes_system (fresh : List (Nat × Event))
    (p : Nat × Event) (h : is_system_activity p.2 = true) :
    ∃ x, (processEvent fresh p).correlation_notes =
      some (x ++ " | System Activity") := by
  have hsys : is_system_activity
      (timeBucketUpdate fresh (identityUpdate fresh p.1 p.2)) =
      is_system_activity p.2 := by
    apply is_system_activity_congr
    · exact (timeBucketUpdate_fields fresh _).2.2.1.trans
        (identityUpdate_fields fresh _ _).2.1
    · exact (timeBucketUpdate_fields fresh _).2.2.2.1.trans
        (identityUpdate_fields fresh _ _).2.2.1
  simp only [processEvent, attributionUpdate, hsys, h, if_pos]
  exact ⟨_, rfl⟩

/-! ## Helper lemmas: indexing `correlate_events` -/

theorem enumFrom_map_get (f : Nat × Event → Event) :
    ∀ (l : List Event) (n i : Nat),
      ((List.enumFrom n l).map f).get? i =
        (l.get? i).map (fun e => f (n + i, e))
  | [], n, i => by simp
  | a :: l, n, 0 => by simp
  | a :: l, n, i + 1 => by
    have ih := enumFrom_map_get f l (n + 1) i
    have hn : n + 1 + i = n + (i + 1) := by omega
    simp only [List.enumFrom, List.map_cons, List.get?_cons_succ]
    rw [ih, hn]

theorem correlate_events_get (events : List Event) (i : Nat) :
    (correlate_events events).get? i =
      (events.get? i).map
        (fun e => processEvent (freshEvents events) (i, e)) := by
  unfold correlate_events
  have h : events.enum = List.enumFrom 0 events := rfl
  rw [h, enumFrom_map_get]
  simp

theorem forall2_enumFrom_map (R : Event → Event → Prop)
    (f : Nat × Event → Event) (h : ∀ i e, R e (f (i, e))) :
    ∀ (l : List Event) (n : Nat),
      List.Forall₂ R l ((List.enumFrom n l).map f)
  | [], _ => List.Forall₂.nil
  | a :: l, n => by
    simp only [List.enumFrom, List.map_cons]
    exact List.Forall₂.cons (h n a) (forall2_enumFrom_map R f h l (n + 1))

/-! ## Helper lemmas: the code's confidence equals the (amended) rule -/

theorem filter_source_map : ∀ (l : List Event) (s : String),
    (l.filter (fun r => decide (r.source ≠ s))).map (fun r => r.source) =
    (l.map (fun r => r.source)).filter (fun x => decide (x ≠ s))
  | [], _ => rfl
  | a :: l, s => by
    by_cases h : a.source = s
    · rw [List.filter_cons_of_neg (by simp [h]), List.map_cons,
        List.filter_cons_of_neg (by simp [h])]
      exact filter_source_map l s
    · rw [List.filter_cons_of_pos (by simp [h]), List.map_cons, List.map_cons,
        List.filter_cons_of_pos (by simp [h])]
      rw [filter_source_map l s]

theorem calculate_confidence_eq_rule (e : Event) (related : List Event) :
    calculate_confidence e related = confidence_rule e related := by
  unfold calculate_confidence confidence_rule
  cases e.sort_time with
  | none => rfl
  | some t => simp only [filter_source_map]

/-! ## More helper lemmas -/

theorem foldl_bucketNoteStep_contains (t : Nat) (mk : Event → String)
    (s : String) :
    ∀ (l : List (Nat × Event)) (acc : Event),
      strContains (acc.correlation_notes.getD "") s = true →
      strContains
        ((l.foldl (bucketNoteStep t mk) acc).correlation_notes.getD "")
        s = true
  | [], _, h => h
  | p :: l, acc, h => by
    simp only [List.foldl_cons]
    apply foldl_bucketNoteStep_contains t mk s l
    unfold bucketNoteStep
    rcases p.2.sort_time with _ | tp
    · exact h
    · simp only []
      split
      · exact strContains_appendNote _ _ _ h
      · exact h

theorem snd_mem_of_mem_enumFrom :
    ∀ (l : List Event) (n : Nat) (p : Nat × Event),
      p ∈ List.enumFrom n l → p.2 ∈ l
  | [], _, _, h => by cases h
  | a :: l, n, p, h => by
    cases h with
    | head => exact List.mem_cons_self _ _
    | tail _ h =>
      exact List.mem_cons_of_mem _ (snd_mem_of_mem_enumFrom l (n + 1) p h)

theorem enumFrom_map_congr_mem (f : Nat × Event → Event)
    (g : Event → Event) :
    ∀ (l : List Event) (n : Nat), (∀ x ∈ l, ∀ i, f (i, x) = g x) →
      (List.enumFrom n l).map f = l.map g
  | [], _, _ => rfl
  | a :: l, n, h => by
    simp only [List.enumFrom, List.map_cons]
    rw [h a (List.mem_cons_self _ _) n,
      enumFrom_map_congr_mem f g l (n + 1)
        (fun x hx i => h x (List.mem_cons_of_mem _ hx) i)]

theorem setProcessed_self (x : Event) (h : x._processed = true) :
    { x with _processed := true } = x := by
  cases x
  simp only [] at h
  subst h
  rfl

theorem setSubject_self (x : Event) (h : x.subject = "User") :
    { x with subject := "User" } = x := by
  cases x
  simp only [] at h
  subst h
  rfl

theorem escalate_low (c : Confidence) : escalate c Confidence.LOW = c := by
  cases c <;> rfl

theorem processed_of_mem_correlate (events : List Event) (e : Event)
    (he : e ∈ correlate_events events) : e._processed = true := by
  unfold correlate_events at he
  rcases List.mem_map.mp he with ⟨p, _, hp⟩
  rw [← hp]
  rfl

theorem freshEvents_correlate_nil (events : List Event) :
    freshEvents (correlate_events events) = [] := by
  unfold freshEvents
  rw [List.filter_eq_nil]
  intro p hp
  have hmem : p.2 ∈ correlate_events events :=
    snd_mem_of_mem_enumFrom _ 0 p hp
  simp [processed_of_mem_correlate events p.2 hmem]

theorem is_system_of_mem_correlate (events : List Event) (e : Event)
    (he : e ∈ correlate_events events) :
    e.subject = (if is_system_activity e then "System" else "User") := by
  unfold correlate_events at he
  rcases List.mem_map.mp he with ⟨p, _, hp⟩
  have h1 : e.subject = (if is_system_activity p.2 then "System" else "User") := by
    rw [← hp]
    exact processEvent_subject _ _
  have h2 : is_system_activity e = is_system_activity p.2 := by
    apply is_system_activity_congr
    · rw [← hp]
      exact processEvent_object _ _
    · rw [← hp]
      exact processEvent_description _ _
  rw [h1, h2]

/-! ## Claim theorems -/

/-- C4: Confidence is monotone — for every event, its confidence after
any run of `correlate_events` is greater than or equal to its confidence
before the run under the ordering Low < Medium < High; no pass ever
downgrades a confidence value. -/
theorem c4_confidence_monotone (events : List Event) :
    List.Forall₂
      (fun before after =>
        confRank before.confidence ≤ confRank after.confidence)
      events (correlate_events events) := by
  unfold correlate_events
  have he : events.enum = List.enumFrom 0 events := rfl
  rw [he]
  apply forall2_enumFrom_map
  intro i e
  rw [processEvent_confidence]
  exact identityUpdate_confidence_mono _ _ _

/-- C8: `is_temporally_valid` returns False if and only if a present
timestamp of the event (`time_start` or `time_end`) exceeds the allowed
bound — the current time when `strict_mode` is true, or the current time
plus `max_future_drift_minutes` when `strict_mode` is false; in every
other case, including when both timestamps are absent, it returns
True. -/
theorem c8_temporal_validity (e : Event) (current_time : Nat)
    (cfg : TimeValidationConfig) :
    (e.is_temporally_valid current_time cfg = false ↔
      ∃ t, (e.time_start = some t ∨ e.time_end = some t) ∧
        (if cfg.strict_mode then current_time
         else current_time + cfg.max_future_drift_minutes * 60) < t) := by
  cases hm : cfg.strict_mode <;>
    unfold Event.is_temporally_valid <;>
    rcases hs : e.time_start with _ | ts <;>
    rcases he : e.time_end with _ | te <;>
    simp [hm, hs, he]
  all_goals
    constructor
    · intro himp
      by_cases hts : ts ≤ (if cfg.strict_mode then current_time
          else current_time + cfg.max_future_drift_minutes * 60)
      · rw [hm] at hts
        simp only [Bool.false_eq_true, if_false, if_true] at hts
        first
          | exact ⟨te, Or.inr rfl, himp hts⟩
      · rw [hm] at hts
        simp only [Bool.false_eq_true, if_false, if_true] at hts
        exact ⟨ts, Or.inl rfl, by omega⟩
    · rintro ⟨t, h1 | h1, h2⟩ <;> intro hts <;> omega

/-- C10: For every event whose object is None or the empty string, the
Name Normalizer returns the empty token and identity grouping places the
event in no identity group, so the identity-grouping pass leaves its
confidence, correlated flag, and correlation_notes unchanged (here: the
event is left entirely unchanged by the identity pass). -/
theorem c10_empty_object_ungrouped (e : Event) (h : e.object = "") :
    normalize_program_name e.object = "" ∧
    (∀ (fresh : List (Nat × Event)) (i : Nat), identityUpdate fresh i e = e) ∧
    (∀ (fresh : List (Nat × Event)) (nm : String) (i : Nat), nm ≠ "" →
      (i, e) ∉ identityGroup fresh nm) := by
  have hn : normalize_program_name e.object = "" := by
    rw [h]
    rfl
  refine ⟨hn, ?_, ?_⟩
  · intro fresh i
    by_cases hp : e._processed = true <;> simp [identityUpdate, hp, hn]
  · intro fresh nm i hnm hmem
    have hx := (List.mem_filter.mp hmem).2
    simp only [decide_eq_true_eq] at hx
    exact hnm (hx.symm.trans hn)

def c10ev : Event :=
  { object := "", confidence := Confidence.HIGH,
    correlation_notes := some "keep" }

def c10other : Event := { object := "foo.exe", source := "A" }

theorem c10_witness :
    identityUpdate [(1, c10other)] 0 c10ev = c10ev ∧
    (0, c10ev) ∉ identityGroup [(1, c10other)] "foo" :=
  ⟨(c10_empty_object_ungrouped c10ev rfl).2.1 [(1, c10other)] 0,
   (c10_empty_object_ungrouped c10ev rfl).2.2 [(1, c10other)] "foo" 0
     (by decide)⟩

def c7ev : Event :=
  { subject := "Admin", object := "report", description := "quarterly report" }

/-- C7 counterexample: the claim says an event with neither `time_start`
nor `time_end` is preserved unmodified by all core passes (subject,
confidence, correlated flag, correlation_notes all unchanged); but the
attribution pass rewrites the subject of every event, so a timeless
event with subject "Admin" comes out with subject "User". -/
theorem c7_counterexample :
    c7ev.time_start = none ∧ c7ev.time_end = none ∧
    (correlate_events [c7ev]).map (fun e => e.subject) ≠ [c7ev.subject] := by
  decide

/-- C7 amended: an event with neither `time_start` nor `time_end`
participates in no time-bucket grouping (the time-bucket pass leaves it
untouched) and in no windowed confidence math
(`calculate_confidence` on it is always Low), and its confidence is
unchanged by `correlate_events`; but it is NOT otherwise preserved
unmodified — the attribution pass rewrites its subject, and a
multi-source identity group may still set its correlated flag and
overwrite its notes. -/
theorem c7_amended (events : List Event) (i : Nat) (e : Event)
    (he : events.get? i = some e) (h1 : e.time_start = none)
    (h2 : e.time_end = none) :
    (∀ (fresh : List (Nat × Event)), timeBucketUpdate fresh e = e) ∧
    (∀ related, calculate_confidence e related = Confidence.LOW) ∧
    (∃ e', (correlate_events events).get? i = some e' ∧
      e'.confidence = e.confidence) := by
  have hst : e.sort_time = none := by
    unfold Event.sort_time
    rw [h2, h1]
  refine ⟨?_, ?_, ?_⟩
  · intro fresh
    simp only [timeBucketUpdate, hst]
    split <;> rfl
  · intro related
    simp only [calculate_confidence, hst]
  · refine ⟨processEvent (freshEvents events) (i, e), ?_, ?_⟩
    · rw [correlate_events_get, he]
      rfl
    · rw [processEvent_confidence]
      rcases identityUpdate_confidence (freshEvents events) i e with hc | hc <;>
        rw [hc]
      have hlow : calculate_confidence e
          (((identityGroup (freshEvents events)
              (normalize_program_name e.object)).filter
            (fun p => decide (p.1 ≠ i))).map Prod.snd) = Confidence.LOW := by
        simp only [calculate_confidence, hst]
      rw [hlow, escalate_low]

def c7w : Event :=
  { subject := "Admin", object := "notes.txt", source := "A",
    confidence := Confidence.MEDIUM }

theorem c7_witness :
    (∀ (fresh : List (Nat × Event)), timeBucketUpdate fresh c7w = c7w) ∧
    (∀ related, calculate_confidence c7w related = Confidence.LOW) ∧
    (∃ e', (correlate_events [c7w]).get? 0 = some e' ∧
      e'.confidence = c7w.confidence) :=
  c7_amended [c7w] 0 c7w rfl rfl rfl

def c1e1 : Event := { object := "foo", source := "A", time_start := some 0 }

def c1e2 : Event :=
  { object := "foo", source := "B", time_start := some 10000 }

/-- C1 counterexample: both events form one identity group ("foo") and
are processed by identity grouping.  Under the claim's time-gated rule
the first event's peers contribute no distinct source (the only peer is
10000 seconds away, far outside the 5-minute window) and no time
agreement, so its confidence should stay Low; the code counts the
differing source without any time gate and escalates it to Medium. -/
theorem c1_counterexample :
    c1e1.confidence = Confidence.LOW ∧
    confidence_rule_time_gated c1e1 [c1e2] = Confidence.LOW ∧
    (correlate_events [c1e1, c1e2]).map (fun e => e.confidence) =
      [Confidence.MEDIUM, Confidence.MEDIUM] := by
  decide

/-- C1 amended: for every event processed by the Correlation Engine's
identity grouping (a not yet processed event with a nonempty normalized
name whose identity group has at least two members), the confidence
after the run equals the never-downgrading escalation of its prior
confidence by the rule computed from its identity-group peers, where
`distinct_sources` counts distinct source values differing from the
event's own source among ALL related events (no time gate),
`time_agreements` counts related events whose `sort_time` lies within
5 minutes of the event's `sort_time`, and an event without a
`sort_time` of its own always computes Low. -/
theorem c1_amended (events : List Event) (i : Nat) (e : Event)
    (he : events.get? i = some e)
    (hf : e._processed = false)
    (hnm : normalize_program_name e.object ≠ "")
    (hg : 2 ≤ (identityGroup (freshEvents events)
        (normalize_program_name e.object)).length) :
    ∃ e', (correlate_events events).get? i = some e' ∧
      e'.confidence = escalate e.confidence
        (confidence_rule e
          (((identityGroup (freshEvents events)
              (normalize_program_name e.object)).filter
            (fun p => decide (p.1 ≠ i))).map Prod.snd)) := by
  refine ⟨processEvent (freshEvents events) (i, e), ?_, ?_⟩
  · rw [correlate_events_get, he]
    rfl
  · rw [processEvent_confidence,
      identityUpdate_confidence_of_grouped _ _ _ hf hnm (by omega),
      calculate_confidence_eq_rule]

theorem c1_amended_witness :
    ∃ e', (correlate_events [c1e1, c1e2]).get? 0 = some e' ∧
      e'.confidence = escalate c1e1.confidence
        (confidence_rule c1e1
          (((identityGroup (freshEvents [c1e1, c1e2])
              (normalize_program_name c1e1.object)).filter
            (fun p => decide (p.1 ≠ 0))).map Prod.snd)) :=
  c1_amended [c1e1, c1e2] 0 c1e1 rfl rfl (by decide) (by decide)

def c2e1 : Event :=
  { object := "report.pdf", source := "A",
    correlation_notes := some "PRIOR" }

def c2e2 : Event := { object := "report.pdf", source := "B" }

/-- C2 counterexample: an event entering `correlate_events` with
non-empty notes "PRIOR" and sitting in a two-member, two-source identity
group has its notes overwritten by the corroboration note, so the prior
text is no longer contained afterwards. -/
theorem c2_counterexample :
    c2e1.correlation_notes = some "PRIOR" ∧
    (correlate_events [c2e1, c2e2]).map
      (fun x => strContains (x.correlation_notes.getD "") "PRIOR") =
      [false, false] := by
  decide

def c2fa : Event :=
  { event_type := some EventType.FILE_REFERENCE, object := "report.pdf",
    source := "A", time_start := some 100 }

def c2fb : Event :=
  { event_type := some EventType.FILE_REFERENCE, object := "report.pdf",
    source := "B", time_start := some 100 }

def c2ex : Event :=
  { event_type := some EventType.PROGRAM_EXECUTION, object := "word",
    source := "C", time_start := some 150 }

/-- C2 amended: the time-bucket pairing pass and the attribution pass
only append to `correlation_notes` (any prior text stays contained), but
the identity-grouping pass either leaves the notes unchanged or
OVERWRITES them with its corroboration note "Corroborated by: ...";
since identity grouping runs first, an event correlated by both identity
grouping and time-bucket pairing still ends with notes containing the
evidence added by both passes (checked on a concrete run). -/
theorem c2_amended (fresh : List (Nat × Event)) (i : Nat) (e : Event)
    (s : String) (h : e.correlation_notes = some s) :
    strContains ((timeBucketUpdate fresh e).correlation_notes.getD "")
      s = true ∧
    strContains ((attributionUpdate e).correlation_notes.getD "") s = true ∧
    ((identityUpdate fresh i e).correlation_notes = e.correlation_notes ∨
      ∃ t, (identityUpdate fresh i e).correlation_notes =
        some ("Corroborated by: " ++ t)) ∧
    ((correlate_events [c2fa, c2fb, c2ex]).map
      (fun x => strContains (x.correlation_notes.getD "") "Corroborated by:" &&
        strContains (x.correlation_notes.getD "") "Associated with")).get? 0 =
      some true := by
  have hbase : strContains (e.correlation_notes.getD "") s = true := by
    rw [h]
    exact strContains_refl s
  refine ⟨?_, ?_, ?_, by decide⟩
  · simp only [timeBucketUpdate]
    split
    · exact hbase
    · rcases hst : e.sort_time with _ | t
      · exact hbase
      · simp only []
        split
        · exact hbase
        · split
          · exact foldl_bucketNoteStep_contains _ _ _ _ _ hbase
          · split
            · exact foldl_bucketNoteStep_contains _ _ _ _ _ hbase
            · exact hbase
  · simp only [attributionUpdate]
    split
    · simp only [Option.getD_some]
      exact strContains_append_right _ _ _ hbase
    · exact hbase
  · simp only [identityUpdate]
    split
    · exact Or.inl rfl
    · split
      · exact Or.inl rfl
      · split
        · exact Or.inl rfl
        · split
          · exact Or.inr ⟨_, rfl⟩
          · exact Or.inl rfl

theorem c2_amended_witness :
    strContains ((timeBucketUpdate [] c2e1).correlation_notes.getD "")
      "PRIOR" = true ∧
    strContains ((attributionUpdate c2e1).correlation_notes.getD "")
      "PRIOR" = true ∧
    ((identityUpdate [] 0 c2e1).correlation_notes = c2e1.correlation_notes ∨
      ∃ t, (identityUpdate [] 0 c2e1).correlation_notes =
        some ("Corroborated by: " ++ t)) ∧
    ((correlate_events [c2fa, c2fb, c2ex]).map
      (fun x => strContains (x.correlation_notes.getD "") "Corroborated by:" &&
        strContains (x.correlation_notes.getD "") "Associated with")).get? 0 =
      some true :=
  c2_amended [] 0 c2e1 "PRIOR" rfl

def c5ev : Event := { object := "", description := "winsxs" }

/-- C5 counterexample: the claim's condition holds for an event whose
description contains the listed fragment "winsxs", so the claim predicts
subject "System"; the code requires the longer fragment
"windows\winsxs" (and checks process names only in `object`), so the
attribution pass classifies the event as "User". -/
theorem c5_counterexample :
    claim_system_condition c5ev = true ∧
    (correlate_events [c5ev]).map (fun e => e.subject) = ["User"] := by
  decide

/-- C5 amended: after the attribution pass of `correlate_events`, every
event's subject equals exactly "System" if `is_system_activity` holds of
it — i.e. if its object or description contains one of the code's path
fragments (system32, syswow64, windows\system, windowsapps,
program files\windowsapps, windows\winsxs, windows\servicing), or its
OBJECT (only) contains one of the process names (svchost, services,
lsass, winlogon, csrss, smss, system, idle, system idle process) — and
exactly "User" otherwise, regardless of the subject's prior value; when
classified System, its correlation_notes afterwards contains
"System Activity". -/
theorem c5_amended (events : List Event) (i : Nat) (e : Event)
    (he : events.get? i = some e) :
    ∃ e', (correlate_events events).get? i = some e' ∧
      e'.subject = (if is_system_activity e then "System" else "User") ∧
      (is_system_activity e = true →
        strContains (e'.correlation_notes.getD "") "System Activity" =
          true) := by
  refine ⟨processEvent (freshEvents events) (i, e), ?_, ?_, ?_⟩
  · rw [correlate_events_get, he]
    rfl
  · exact processEvent_subject _ _
  · intro hsys
    rcases processEvent_notes_system (freshEvents events) (i, e) hsys with
      ⟨x, hx⟩
    rw [hx]
    simp only [Option.getD_some]
    exact strContains_sysact x

def c5sys : Event :=
  { object := "C:\\Windows\\System32\\svchost.exe",
    subject := "SomeCollectorValue" }

theorem c5_amended_witness :
    ∃ e', (correlate_events [c5sys]).get? 0 = some e' ∧
      e'.subject = (if is_system_activity c5sys then "System" else "User") ∧
      (is_system_activity c5sys = true →
        strContains (e'.correlation_notes.getD "") "System Activity" =
          true) :=
  c5_amended [c5sys] 0 c5sys rfl

instance : Inhabited Event := ⟨{}⟩

def c3ev : Event := { object := "C:\\Windows\\System32\\svchost.exe" }

/-- C3 counterexample: running `correlate_events` a second time over its
own output changes the notes of a system-classified event — the
attribution pass appends " | System Activity" again, duplicating it. -/
theorem c3_counterexample :
    (correlate_events (correlate_events [c3ev])).map
        (fun e => e.correlation_notes) ≠
      (correlate_events [c3ev]).map (fun e => e.correlation_notes) := by
  decide

/-- C3 amended: a second run of `correlate_events` over its own output
skips the identity-grouping and time-bucket passes entirely (every event
carries the processed marker), so it reduces to re-running the
attribution pass: every event's confidence and correlated flag are
unchanged and no grouping note is re-added or duplicated; an event not
classified as system activity is completely unchanged, but each
system-classified event gets " | System Activity" appended to its notes
once more. -/
theorem c3_amended (events : List Event) (e : Event)
    (he : e ∈ correlate_events events) :
    correlate_events (correlate_events events) =
      (correlate_events events).map attributionUpdate ∧
    (attributionUpdate e).confidence = e.confidence ∧
    (attributionUpdate e).correlated = e.correlated ∧
    (is_system_activity e = false → attributionUpdate e = e) ∧
    (is_system_activity e = true →
      (attributionUpdate e).correlation_notes =
        some ((e.correlation_notes.getD "") ++ " | System Activity")) := by
  refine ⟨?_, (attributionUpdate_fields e).1, (attributionUpdate_fields e).2.1,
    ?_, ?_⟩
  · conv_lhs => rw [correlate_events]
    rw [freshEvents_correlate_nil]
    have henum : (correlate_events events).enum =
        List.enumFrom 0 (correlate_events events) := rfl
    rw [henum]
    apply enumFrom_map_congr_mem
    intro x hx i
    have hp : x._processed = true := processed_of_mem_correlate events x hx
    have h1 : identityUpdate [] i x = x := by
      simp only [identityUpdate]
      rw [if_pos hp]
    have h2 : timeBucketUpdate [] x = x := by
      simp only [timeBucketUpdate]
      rw [if_pos hp]
    simp only [processEvent, h1, h2]
    exact setProcessed_self _ ((attributionUpdate_fields x).2.2.2.2.2.2.2.2.trans hp)
  · intro hns
    have hsubj : e.subject = "User" := by
      rw [is_system_of_mem_correlate events e he, hns]
      simp
    simp only [attributionUpdate, hns]
    simp only [Bool.false_eq_true, if_false]
    exact setSubject_self e hsubj
  · intro hsys
    simp only [attributionUpdate, hsys, if_true]

theorem c3_amended_witness :
    correlate_events (correlate_events [c3ev]) =
      (correlate_events [c3ev]).map attributionUpdate ∧
    (attributionUpdate ((correlate_events [c3ev]).headI)).confidence =
      ((correlate_events [c3ev]).headI).confidence ∧
    (attributionUpdate ((correlate_events [c3ev]).headI)).correlated =
      ((correlate_events [c3ev]).headI).correlated ∧
    (is_system_activity ((correlate_events [c3ev]).headI) = false →
      attributionUpdate ((correlate_events [c3ev]).headI) =
        (correlate_events [c3ev]).headI) ∧
    (is_system_activity ((correlate_events [c3ev]).headI) = true →
      (attributionUpdate ((correlate_events [c3ev]).headI)).correlation_notes =
        some ((((correlate_events [c3ev]).headI).correlation_notes.getD "") ++
          " | System Activity")) :=
  c3_amended [c3ev] ((correlate_events [c3ev]).headI) (by decide)

/-! ## Helper lemmas for the inference analyzer refinement (C6, C9) -/

theorem filterMap_filter_none (p : Event → Bool) (f : Event → Option Event)
    (h : ∀ e, p e = false → f e = none) :
    ∀ l : List Event, l.filterMap f = (l.filter p).filterMap f
  | [] => rfl
  | a :: l => by
    by_cases hp : p a = true
    · rw [List.filter_cons_of_pos hp, List.filterMap_cons, List.filterMap_cons,
        filterMap_filter_none p f h l]
    · rw [List.filter_cons_of_neg hp, List.filterMap_cons,
        h a (by simpa using hp), filterMap_filter_none p f h l]

theorem filterMap_congr_mem (f g : Event → Option Event) :
    ∀ l : List Event, (∀ x ∈ l, f x = g x) → l.filterMap f = l.filterMap g
  | [], _ => rfl
  | a :: l, h => by
    rw [List.filterMap_cons, List.filterMap_cons,
      h a (List.mem_cons_self _ _),
      filterMap_congr_mem f g l (fun x hx => h x (List.mem_cons_of_mem _ hx))]

theorem and_absorb_bool (x y z : Bool) :
    ((x && y) && ((x && y) && z)) = ((x && y) && z) := by
  cases x <;> cases y <;> cases z <;> rfl

theorem is_browser_download_filter (events : List Event) (path : String) :
    is_browser_download path (events.filter (fun e =>
      decide (e.event_type = some EventType.FILE_REFERENCE) &&
      browserDownloadSources.any (fun s => decide (e.source = s)))) =
    events.any (fun b =>
      decide (b.event_type = some EventType.FILE_REFERENCE) &&
      browserDownloadSources.any (fun src => decide (b.source = src)) &&
      decide (pyLower b.object = pyLower path)) := by
  unfold is_browser_download
  rw [List.any_filter]
  congr 1
  funext b
  exact and_absorb_bool _ _ _

theorem object_ne_empty_of_keyword (a : Event)
    (h : appKeywords.any (fun k => strContains (pyLower a.object) k) = true) :
    a.object ≠ "" := by
  intro hobj
  rw [hobj] at h
  exact absurd h (by decide)

theorem find_correlated_app_filter (t : Nat) :
    ∀ events : List Event,
      find_correlated_app t (events.filter (fun e =>
        decide (e.event_type = some EventType.PROGRAM_EXECUTION))) =
      (events.find? (fun a =>
        decide (a.event_type = some EventType.PROGRAM_EXECUTION) &&
        appKeywords.any (fun k => strContains (pyLower a.object) k) &&
        (match (match a.time_end with
                | some u => some u
                | none => a.time_start) with
         | some u => decide (tdist u t ≤ 300)
         | none => false))).map (fun a => a.object)
  | [] => rfl
  | a :: l => by
    have ih := find_correlated_app_filter t l
    unfold find_correlated_app at ih ⊢
    by_cases htp : a.event_type = some EventType.PROGRAM_EXECUTION
    · rw [List.filter_cons_of_pos (by simp [htp]), List.findSome?_cons,
        List.find?_cons]
      by_cases hk :
          (appKeywords.any fun k => strContains (pyLower a.object) k) = true
      · rcases hu : (match a.time_end with
            | some u => some u
            | none => a.time_start) with _ | u
        · simp only [htp, hk, hu, ne_eq, not_true_eq_false, if_false,
            Bool.not_true, Bool.false_eq_true, decide_True, Bool.true_and,
            Bool.and_false]
          exact ih
        · by_cases hw : tdist u t ≤ 300
          · simp [htp, hk, hu, hw, analyzerTimeWindow]
          · simp only [htp, hk, hu, hw, analyzerTimeWindow, ne_eq,
              not_true_eq_false, if_false, Bool.not_true, Bool.false_eq_true,
              decide_True, decide_False, Bool.true_and, Bool.and_false,
              if_neg, Bool.and_true]
            exact ih
      · simp only [htp, hk, ne_eq, not_true_eq_false, if_false, Bool.not_true,
          decide_True, Bool.true_and]
        simp only [Bool.not_eq_true] at hk
        simp only [hk, Bool.false_and, Bool.and_false, if_true,
          Bool.true_eq_false, if_neg]
        exact ih
    · rw [List.filter_cons_of_neg (by simp [htp]), List.find?_cons]
      have hd : decide (a.event_type = some EventType.PROGRAM_EXECUTION)
        = false := by simp [htp]
      simp only [hd, Bool.false_and]
      exact ih

theorem inferred_for_none_of_not_ntfs (events : List Event)
    (st en : Option Nat) (e : Event)
    (h : (decide (e.event_type = some EventType.FILE_REFERENCE) &&
          decide (e.source = "NTFS Metadata")) = false) :
    inferred_for events st en e = none := by
  unfold inferred_for
  rcases e.time_start with _ | t
  · rfl
  · by_cases ht : e.event_type = some EventType.FILE_REFERENCE <;>
      by_cases hs : e.source = "NTFS Metadata" <;>
      simp [ht, hs] at h ⊢

theorem process_candidate_eq_inferred (events : List Event)
    (st en : Option Nat) (e : Event)
    (ht : e.event_type = some EventType.FILE_REFERENCE)
    (hs : e.source = "NTFS Metadata") :
    process_candidate
      (events.filter (fun b =>
        decide (b.event_type = some EventType.FILE_REFERENCE) &&
        browserDownloadSources.any (fun s => decide (b.source = s))))
      (events.filter (fun b =>
        decide (b.event_type = some EventType.PROGRAM_EXECUTION)))
      st en e =
    inferred_for events st en e := by
  have hcand : is_candidate_file e =
      (strContains (pyLower e.object) "\\downloads\\" ||
       strContains (pyLower e.object) "\\desktop\\") := by
    unfold is_candidate_file
    simp [ht, hs, candidate_paths]
  unfold process_candidate inferred_for
  rcases hts : e.time_start with _ | t
  · by_cases hc : is_candidate_file e = true <;> simp [hc]
  · by_cases hp : (strContains (pyLower e.object) "\\downloads\\" ||
        strContains (pyLower e.object) "\\desktop\\") = true
    · have hc : is_candidate_file e = true := by rw [hcand]; exact hp
      simp only [hc, Bool.not_true, Bool.false_eq_true, if_false, ht, hs,
        decide_True, Bool.true_and, hp]
      have hD1 : (match st with
          | some s => decide (s ≤ t)
          | none => true) =
          !(match st with
            | some s => decide (t < s)
            | none => false) := by
        rcases st with _ | s
        · rfl
        · by_cases h : t < s
          · simp [h, Nat.not_le.mpr h]
          · simp [h, Nat.le_of_not_lt h]
      have hD2 : (match en with
          | some x => decide (t ≤ x)
          | none => true) =
          !(match en with
            | some x => decide (t > x)
            | none => false) := by
        rcases en with _ | x
        · rfl
        · by_cases h : t > x
          · simp [h, Nat.not_le.mpr h]
          · simp [h, Nat.le_of_not_lt h]
      rw [hD1, hD2]
      cases hb1 : (match st with
          | some s => decide (t < s)
          | none => false)
      · cases hb2 : (match en with
            | some x => decide (t > x)
            | none => false)
        · simp only [hb1, hb2, Bool.not_false, Bool.true_and,
            Bool.false_eq_true, if_false]
          rw [is_browser_download_filter]
          by_cases hbr : (events.any fun b =>
              decide (b.event_type = some EventType.FILE_REFERENCE) &&
              browserDownloadSources.any (fun src => decide (b.source = src)) &&
              decide (pyLower b.object = pyLower e.object)) = true
          · simp [hbr]
          · simp only [Bool.not_eq_true] at hbr
            simp only [hbr, Bool.not_false, if_false, Bool.true_eq_false,
              Bool.and_true, if_true]
            rw [find_correlated_app_filter]
            rcases hfind : events.find? (fun a =>
                decide (a.event_type = some EventType.PROGRAM_EXECUTION) &&
                appKeywords.any (fun k => strContains (pyLower a.object) k) &&
                (match (match a.time_end with
                        | some u => some u
                        | none => a.time_start) with
                 | some u => decide (tdist u t ≤ 300)
                 | none => false)) with _ | a
            · simp [hfind]
            · have hpa := List.find?_some hfind
              have hkw : (appKeywords.any
                  (fun k => strContains (pyLower a.object) k)) = true := by
                rcases Bool.and_eq_true_iff.mp hpa with ⟨h1, _⟩
                exact (Bool.and_eq_true_iff.mp h1).2
              have hne := object_ne_empty_of_keyword a hkw
              simp [hfind, hne]
        · simp [hb1, hb2]
      · simp [hb1]
    · have hc : is_candidate_file e = false := by
        rw [hcand]
        simpa using hp
      simp only [Bool.not_eq_true] at hp
      simp [hc, hp]

/-- C6: For every event list, `analyze` emits, for each candidate file
event (a FileReference from source "NTFS Metadata" whose lower-cased
path contains `\downloads\` or `\desktop\`, with known creation time,
within the optional `[start_time, end_time]` bound), exactly one new
FileAcquisitionInferred event with subject "User", confidence Medium,
and a description naming the first (in list order) ProgramExecution
event whose object contains a messaging/cloud keyword and whose
execution time (`time_end` preferred, else `time_start`) is within
5 minutes, inclusive, of the file's creation time — and emits no event
for a candidate whose path case-insensitively equals the object of any
browser-download event or for which no such execution exists.  Stated as
a refinement: `analyze` equals the per-event `filterMap` of the
claim-side `inferred_for`. -/
theorem c6_analyze_refines (events : List Event) (st en : Option Nat) :
    analyze events st en = events.filterMap (inferred_for events st en) := by
  simp only [analyze]
  rw [filterMap_filter_none
      (fun e => decide (e.event_type = some EventType.FILE_REFERENCE) &&
        decide (e.source = "NTFS Metadata"))
      (inferred_for events st en)
      (inferred_for_none_of_not_ntfs events st en) events]
  apply filterMap_congr_mem
  intro x hx
  have h2 := (List.mem_filter.mp hx).2
  rcases Bool.and_eq_true_iff.mp h2 with ⟨h3, h4⟩
  exact process_candidate_eq_inferred events st en x
    (by simpa using h3) (by simpa using h4)

/-- C9: the inference analyzer uses only `time_start` as a candidate
file's creation time — an NTFS-metadata FileReference whose `time_start`
is None yields no inferred event (even when its `time_end` is present
and a messaging/cloud ProgramExecution lies within the 5-minute window
of that `time_end`): adding such an event to the input leaves the
analyzer's output unchanged. -/
theorem c9_creation_time_is_time_start (events : List Event)
    (st en : Option Nat) (e : Event)
    (ht : e.event_type = some EventType.FILE_REFERENCE)
    (hs : e.source = "NTFS Metadata")
    (h0 : e.time_start = none) :
    analyze (e :: events) st en = analyze events st en := by
  simp only [analyze]
  have hbs : browserDownloadSources.any
      (fun s => decide (("NTFS Metadata" : String) = s)) = false := by decide
  have hb : (decide (e.event_type = some EventType.FILE_REFERENCE) &&
      browserDownloadSources.any (fun s => decide (e.source = s))) = false := by
    simp only [hs]
    rw [hbs, Bool.and_false]
  have ha : decide (e.event_type = some EventType.PROGRAM_EXECUTION) =
      false := by simp [ht]
  have hfile : List.filter (fun b =>
      decide (b.event_type = some EventType.FILE_REFERENCE) &&
      decide (b.source = "NTFS Metadata")) (e :: events) =
      e :: List.filter (fun b =>
        decide (b.event_type = some EventType.FILE_REFERENCE) &&
        decide (b.source = "NTFS Metadata")) events :=
    List.filter_cons_of_pos (by simp [ht, hs])
  have hbrow : List.filter (fun b =>
      decide (b.event_type = some EventType.FILE_REFERENCE) &&
      browserDownloadSources.any (fun s => decide (b.source = s)))
      (e :: events) =
      List.filter (fun b =>
        decide (b.event_type = some EventType.FILE_REFERENCE) &&
        browserDownloadSources.any (fun s => decide (b.source = s))) events :=
    List.filter_cons_of_neg (by simp only [Bool.not_eq_true]; exact hb)
  have happ : List.filter (fun b =>
      decide (b.event_type = some EventType.PROGRAM_EXECUTION))
      (e :: events) =
      List.filter (fun b =>
        decide (b.event_type = some EventType.PROGRAM_EXECUTION)) events :=
    List.filter_cons_of_neg (by simp only [Bool.not_eq_true]; exact ha)
  rw [hfile, hbrow, happ, List.filterMap_cons]
  have hnone : process_candidate
      (events.filter (fun b =>
        decide (b.event_type = some EventType.FILE_REFERENCE) &&
        browserDownloadSources.any (fun s => decide (b.source = s))))
      (events.filter (fun b =>
        decide (b.event_type = some EventType.PROGRAM_EXECUTION)))
      st en e = none := by
    unfold process_candidate
    by_cases hc : is_candidate_file e = true <;> simp [hc, h0]
  rw [hnone]

def c9file : Event :=
  { event_type := some EventType.FILE_REFERENCE, source := "NTFS Metadata",
    object := "C:\\Users\\A\\Downloads\\img.jpg", time_end := some 1090 }

def c9app : Event :=
  { event_type := some EventType.PROGRAM_EXECUTION, object := "WhatsApp.exe",
    time_end := some 1000 }

theorem c9_witness :
    analyze (c9file :: [c9app]) none none = analyze [c9app] none none :=
  c9_creation_time_is_time_start [c9app] none none c9file rfl rfl rfl

/- Smoke checks of the analyzer against the spec's own scenarios: the
inference positive case emits exactly one Medium-confidence event naming
WhatsApp.exe, and the browser-download gating suppresses it. -/

example :
    (analyze
      [{ event_type := some EventType.FILE_REFERENCE,
         source := "NTFS Metadata",
         object := "C:\\Users\\A\\Downloads\\img.jpg",
         time_start := some 1000 },
       { event_type := some EventType.PROGRAM_EXECUTION,
         object := "WhatsApp.exe", time_end := some 1090 }] none none).map
      (fun e => (e.description, e.confidence, e.subject)) =
    [("File likely received via WhatsApp.exe (non-browser download inferred)",
      Confidence.MEDIUM, "User")] := by
  decide

example :
    analyze
      [{ event_type := some EventType.FILE_REFERENCE,
         source := "NTFS Metadata",
         object := "C:\\Users\\A\\Downloads\\img.jpg",
         time_start := some 1000 },
       { event_type := some EventType.FILE_REFERENCE,
         source := "Chrome Downloads",
         object := "C:\\Users\\A\\Downloads\\IMG.JPG" },
       { event_type := some EventType.PROGRAM_EXECUTION,
         object := "WhatsApp.exe", time_end := some 1090 }] none none =
    [] := by
  decide
